import Mathlib

/-!
Verification development for the Chess-Plus rules engine and search core.

The definitions below are a shallow embedding of the integer-snapshot
position representation and its operations (`src/Board.py`: `VirtualBoard`;
`src/Piece.py`: the module-level move-generation functions and the integer
piece codec; `src/NegaMax.py`: evaluation, move ordering and the root of the
search).  Squares are integer pairs, a board is a list of eight columns of
eight optional integer piece codes (indexed `[x][y]`, `y = 0` at the top),
and a piece code is `value * 10 + flagBits` exactly as in `Piece.encodeInt`.

Python indexing notes: every dynamic board access in the translated code is
bounds-guarded (`onBoard`, or a `0 <= c <= 7` conjunction) before the index
is used, so the out-of-range behaviour of `atB`/`setB` (returning `none` /
doing nothing) is never observable on the translated paths; the handful of
fixed accesses (`board[0][7]`, `board[7][7]`, castle-target squares) are
exercised only at in-range inputs in the theorems below.
-/

namespace ChessPlus

/-- A board square, `pg.Vector2`-style: `x` is the column, `y` the row. -/
structure Sqr where
  x : Int
  y : Int
deriving DecidableEq, Repr

/-- The special-move tags carried as the third tuple component of a move:
`"d"` (pawn double advance), `"e"` (en passant), `"lc"`/`"rc"` (castles). -/
inductive Flag where
  | d
  | e
  | lc
  | rc
deriving DecidableEq, Repr

/-- A move tuple `(source, destination)` or `(source, destination, flag)`. -/
structure Move where
  src : Sqr
  dst : Sqr
  flag : Option Flag
deriving DecidableEq, Repr

/-- The integer-snapshot board: eight columns of eight optional piece codes. -/
abbrev BoardArr := List (List (Option Nat))

/-- Read `board[x][y]`; out-of-range reads give `none` (see header note). -/
def atB (b : BoardArr) (x y : Int) : Option Nat :=
  if 0 ≤ x ∧ x < 8 ∧ 0 ≤ y ∧ y < 8 then
    (b.getD x.toNat []).getD y.toNat none
  else none

/-- Write `board[x][y] = v`; out-of-range writes do nothing (see header note). -/
def setB (b : BoardArr) (x y : Int) (v : Option Nat) : BoardArr :=
  if 0 ≤ x ∧ x < 8 ∧ 0 ≤ y ∧ y < 8 then
    b.set x.toNat ((b.getD x.toNat []).set y.toNat v)
  else b

/-- Piece.onBoard: whether a square lies within the 8 by 8 board. -/
def onBoardB (s : Sqr) : Bool :=
  (0 ≤ s.x && s.x ≤ 7) && (0 ≤ s.y && s.y ≤ 7)

/-- Team of an integer piece code (`code % 2`): `false` white, `true` black. -/
def teamInt (c : Nat) : Bool := c % 2 == 1

/-- Integer-agent `isPawn` lambda of `updatePawnMoves` — the source tests
`target // 10 == 5`, which is the KING's value, not the pawn's. -/
def isPawnInt (c : Nat) : Bool := c / 10 == 5

/-- Integer-agent `doubleMoved` lambda of `updatePawnMoves`. -/
def doubleMovedInt (c : Nat) : Bool := (c % 10) / 4 != 0

/-- Integer-agent `getMovedEver` lambda of `updatePawnMoves`. -/
def movedEverInt (c : Nat) : Bool := (c / 2) % 2 != 0

/-- Ray descriptors from the `__pieceMoves` table: `("x","x")`, `("mx","x")`,
`(0,"x")` and `("x",0)`. -/
inductive Ray where
  | xx
  | mxx
  | zx
  | xz
deriving DecidableEq, Repr

/-- One entry of a `__pieceMoves` list: a fixed offset or an unlimited ray. -/
inductive Desc where
  | off (dx dy : Int)
  | ray (r : Ray)
deriving DecidableEq, Repr

/-- Target square of a ray at distance `inf` (may be negative, for the
second `changer` direction of `infDist`). -/
def rayTarget (square : Sqr) (r : Ray) (inf : Int) : Sqr :=
  match r with
  | .xx => ⟨square.x + inf, square.y + inf⟩
  | .mxx => ⟨square.x - inf, square.y + inf⟩
  | .zx => ⟨square.x, square.y + inf⟩
  | .xz => ⟨square.x + inf, square.y⟩

/-- The while-loop of `Piece.infDist` for one direction, with explicit fuel:
from any on-board square a ray leaves the board within 8 steps, so fuel 8
makes the translation total without changing its value. -/
def infDistGo (team : Bool) (square : Sqr) (r : Ray) (b : BoardArr)
    (sign : Int) : Nat → Int → List Move
  | 0, _ => []
  | fuel + 1, inf =>
    let t := rayTarget square r inf
    if onBoardB t then
      match atB b t.x t.y with
      | none => ⟨square, t, none⟩ :: infDistGo team square r b sign fuel (inf + sign)
      | some tgt => if teamInt tgt != team then [⟨square, t, none⟩] else []
    else []

/-- Piece.infDist, integer-agent version (the `isinstance(target, King)`
side effect is a no-op on integer boards). -/
def infDist (team : Bool) (square : Sqr) (r : Ray) (b : BoardArr) : List Move :=
  infDistGo team square r b 1 8 1 ++ infDistGo team square r b (-1) 8 (-1)

/-- Piece.updateRegularMoves, integer-agent version. -/
def updateRegularMoves (team : Bool) (square : Sqr) (moveList : List Desc)
    (b : BoardArr) : List Move :=
  (moveList.map (fun d =>
    match d with
    | .ray r => infDist team square r b
    | .off dx dy =>
      let t : Sqr := ⟨square.x + dx, square.y + dy⟩
      if onBoardB t then
        match atB b t.x t.y with
        | none => [⟨square, t, none⟩]
        | some tgt => if teamInt tgt != team then [⟨square, t, none⟩] else []
      else [])).flatten

/-- Piece.updatePawnMoves, integer-agent version, including the en passant
branch exactly as written (with `isPawnInt` testing for value 5). -/
def updatePawnMoves (team turn : Bool) (square : Sqr) (agent : Nat)
    (b : BoardArr) : List Move :=
  let dir : Int := if team == turn then -1 else 1
  let fwd : List Move :=
    let t1 : Sqr := ⟨square.x, square.y + dir⟩
    if onBoardB t1 && (atB b t1.x t1.y).isNone then
      ⟨square, t1, none⟩ ::
        (if !movedEverInt agent then
          let t2 : Sqr := ⟨square.x, square.y + 2 * dir⟩
          if onBoardB t2 && (atB b t2.x t2.y).isNone then
            [⟨square, t2, some Flag.d⟩]
          else []
        else [])
    else []
  let diag : Int → List Move := fun dx =>
    let t : Sqr := ⟨square.x + dx, square.y + dir⟩
    if onBoardB t then
      match atB b t.x t.y with
      | some tgt => if teamInt tgt != team then [⟨square, t, none⟩] else []
      | none =>
        match atB b t.x (t.y - dir) with
        | some tgt =>
          if isPawnInt tgt && doubleMovedInt tgt && (teamInt tgt != team) then
            [⟨square, t, some Flag.e⟩]
          else []
        | none => []
    else []
  fwd ++ diag (-1) ++ diag 1

/-- The `__pieceMoves` class dictionary, keyed by piece value. -/
def pieceMoves : Nat → List Desc
  | 5 => [.off (-1) (-1), .off (-1) 0, .off (-1) 1, .off 0 (-1),
          .off 0 1, .off 1 (-1), .off 1 0, .off 1 1]
  | 4 => [.ray .xx, .ray .mxx, .ray .zx, .ray .xz]
  | 3 => [.ray .xx, .ray .mxx]
  | 2 => [.off (-2) (-1), .off (-2) 1, .off (-1) (-2), .off 1 (-2),
          .off (-1) 2, .off 1 2, .off 2 (-1), .off 2 1]
  | 1 => [.ray .xz, .ray .zx]
  | _ => []

/-- VirtualBoard.getAllMoves with its `turn` and `board` arguments explicit:
scan the squares column-major and collect each active piece's moves. -/
def getAllMovesB (turn : Bool) (b : BoardArr) : List Move :=
  (b.enum.map (fun xcol =>
    (xcol.2.enum.map (fun ycell =>
      match ycell.2 with
      | none => []
      | some c =>
        if (c % 2 == 1) == turn then
          if c ≥ 10 then
            updateRegularMoves turn ⟨(xcol.1 : Int), (ycell.1 : Int)⟩
              (pieceMoves (c / 10)) b
          else
            updatePawnMoves turn turn ⟨(xcol.1 : Int), (ycell.1 : Int)⟩ c b
        else [])).flatten)).flatten

/-- VirtualBoard.getCheck on an explicit board for an explicit turn: do any
of `turn`'s pseudo-legal moves land on the opposing king? -/
def getCheckOn (turn : Bool) (b : BoardArr) : Bool :=
  (getAllMovesB turn b).any (fun m =>
    match atB b m.dst.x m.dst.y with
    | some p => ((p % 2 == 1) != turn) && (p / 10 == 5)
    | none => false)

/-- Board rotation: reverse every column, then the column list. -/
def rotateB (b : BoardArr) : BoardArr := (b.map List.reverse).reverse

/-- VirtualBoard.fakeMove, acting on the board value (the Python method
works on `copy.deepcopy(self.__board)` and never writes `self`).  Note the
special-move block: the trailing `else` (labelled "En passant" in the
source) runs for `lc`, `rc` and `e` alike. -/
def fakeMoveB (b : BoardArr) (m : Move) (promote : Nat) : BoardArr :=
  let b1 := setB (setB b m.dst.x m.dst.y (atB b m.src.x m.src.y)) m.src.x m.src.y none
  let b2 :=
    match atB b1 m.dst.x m.dst.y with
    | some p =>
      if (p / 10 == 0 || p / 10 == 1 || p / 10 == 5) && ((p % 10) / 2) % 2 == 0 then
        setB b1 m.dst.x m.dst.y (some (p + 2))
      else b1
    | none => b1
  let b3 := b2.map (fun col => col.map (fun cell =>
    match cell with
    | some p => if p / 10 == 0 then some (p % 4) else some p
    | none => none))
  let b4 :=
    match m.flag with
    | some Flag.lc => setB (setB b3 (m.dst.x + 1) 7 (atB b3 0 7)) 0 7 none
    | some Flag.rc => setB (setB b3 (m.dst.x - 1) 7 (atB b3 7 7)) 7 7 none
    | _ => b3
  let b5 :=
    match m.flag with
    | none => b4
    | some Flag.d =>
      match atB b4 m.dst.x m.dst.y with
      | some p => setB b4 m.dst.x m.dst.y (some (p + 4))
      | none => b4
    | some _ => setB b4 m.dst.x m.src.y none
  let b6 := b5.map (fun col =>
    match col with
    | [] => []
    | c0 :: rest =>
      (match c0 with
       | some p => if p < 10 then some (promote * 10 + p) else some p
       | none => none) :: rest)
  rotateB b6

/-- The logical state of a VirtualBoard: the piece-code array and the turn. -/
structure VirtualBoard where
  board : BoardArr
  turn : Bool
deriving DecidableEq, Repr

/-- VirtualBoard.getBoard (the deep copy makes it the stored value). -/
def VirtualBoard.getBoard (v : VirtualBoard) : BoardArr := v.board

/-- VirtualBoard.getTurn. -/
def VirtualBoard.getTurn (v : VirtualBoard) : Bool := v.turn

/-- VirtualBoard.getAllMoves with both arguments defaulted, as every caller
in the source invokes it. -/
def VirtualBoard.getAllMoves (v : VirtualBoard) : List Move :=
  getAllMovesB v.turn v.board

/-- VirtualBoard.getCheck: `turnOffset` XORs the stored turn, the optional
`board` argument defaults to the stored board. -/
def VirtualBoard.getCheck (v : VirtualBoard) (b : Option BoardArr)
    (turnOffset : Bool) : Bool :=
  getCheckOn (xor v.turn turnOffset) (b.getD v.board)

/-- VirtualBoard.fakeMove as called with the default `promote=4`. -/
def VirtualBoard.fakeMove (v : VirtualBoard) (m : Move) : BoardArr :=
  fakeMoveB v.board m 4

/-- VirtualBoard.getAllLegalMoves with both arguments defaulted: collect the
self-check moves in `toDel`, then `remove` each from `allMoves`. -/
def VirtualBoard.getAllLegalMoves (v : VirtualBoard) : List Move :=
  let allMoves := getAllMovesB v.turn v.board
  let toDel := allMoves.filter (fun m => getCheckOn (!v.turn) (fakeMoveB v.board m 4))
  toDel.foldl List.erase allMoves

/-- VirtualBoard.makeMove: the body repeats the `fakeMove` update sequence
in place on `self.__board` (ending in `rotateBoard`), then flips the turn. -/
def VirtualBoard.makeMove (v : VirtualBoard) (m : Move) (promote : Nat) :
    VirtualBoard :=
  ⟨fakeMoveB v.board m promote, !v.turn⟩

/-- The `__piecePoints` evaluation dictionary of `NegaMax` (material value
per piece kind).  The dictionary has no key 5: the evaluation only looks a
kind up for codes below 50, so the catch-all is unreachable there. -/
def piecePoints : Nat → Int
  | 4 => 900
  | 3 => 300
  | 2 => 320
  | 1 => 500
  | 0 => 100
  | _ => 0

/-- The `__possibilityPoints` mobility bonus per legal move. -/
def possibilityPoints : Int := 10

/-- The `__perilPoints` constant: "points added for having your own king be
in check (the integer is negative)" per the source's own attribute doc. -/
def perilPoints : Int := -300

/-- Python's implicit bool-to-int coercion used in
`getCheck() - getCheck(turnOffset=True)`. -/
def boolInt (bo : Bool) : Int := if bo then 1 else 0

/-- Contribution of one piece code to the fast-mode material loop of
`NegaMax.__boardEval`: friendly pieces add their points (a friendly king
adds 10000), enemy pieces subtract theirs (an enemy king adds nothing). -/
def pieceContrib (turn : Bool) (p : Nat) : Int :=
  if (p % 2 == 1) == turn then
    if p < 50 then piecePoints (p / 10) else 10000
  else
    if p < 50 then -piecePoints (p / 10) else 0

/-- The material part of fast-mode `NegaMax.__boardEval`: the `-10000`
starting score plus the per-square loop over the board. -/
def materialEval (b : BoardArr) (turn : Bool) : Int :=
  -10000 + ((b.flatten.filterMap id).map (pieceContrib turn)).sum

/-- Fast-mode (`speed=True`) `NegaMax.__boardEval`: material, then
`possibilityPoints * len(getAllLegalMoves()) + perilPoints * (getCheck() -
getCheck(turnOffset=True)) + 100`. -/
def boardEvalFast (v : VirtualBoard) : Int :=
  materialEval v.board v.turn
    + possibilityPoints * (VirtualBoard.getAllLegalMoves v).length
    + perilPoints * (boolInt (VirtualBoard.getCheck v none false)
        - boolInt (VirtualBoard.getCheck v none true))
    + 100

/-- Fast-mode evaluation with the peril (check) term left out; used to
exhibit what the check term contributes on a concrete board. -/
def boardEvalFastSansPeril (v : VirtualBoard) : Int :=
  materialEval v.board v.turn
    + possibilityPoints * (VirtualBoard.getAllLegalMoves v).length
    + 100

/-- Number of king codes (codes of 50 or more, as the evaluation's
`piece < 50` test classifies them) of either colour on the board. -/
def kingCount (b : BoardArr) : Nat :=
  (b.flatten.filterMap id).countP (fun p => 50 ≤ p)

/-- The capture key under which `NegaMax.__orderMoves` files a move: the
destination occupant's kind, `some 0` (a pawn) for an en-passant move onto
an empty square, `none` for other quiet moves. -/
def capturedKind (b : BoardArr) (m : Move) : Option Nat :=
  match atB b m.dst.x m.dst.y with
  | none => if m.flag == some Flag.e then some 0 else none
  | some p => some (p / 10)

/-- Twice the `prox` sort key of `NegaMax.__orderMoves` (the move midpoint's
file distance from the board centre; doubling keeps it integral without
changing the induced order). -/
def proxKey (m : Move) : Nat := (m.src.x + m.dst.x - 7).natAbs

/-- Stable sort by `proxKey`, standing in for Python's stable `list.sort`. -/
def sortProx (l : List Move) : List Move :=
  l.insertionSort (fun a c => proxKey a ≤ proxKey c)

/-- Python's `len(move) == 3`: the move carries a special tag. -/
def isSpecialMove (m : Move) : Bool := m.flag.isSome

/-- One capture-value group of `NegaMax.__orderMoves`: the moves filed under
key `k`, special moves first, each part sorted by proximity. -/
def segOf (b : BoardArr) (moves : List Move) (k : Option Nat) : List Move :=
  let bucket := moves.filter (fun m => capturedKind b m == k)
  sortProx (bucket.filter isSpecialMove)
    ++ sortProx (bucket.filter (fun m => !isSpecialMove m))

/-- NegaMax.__orderMoves: concatenate the groups in the dictionary's key
order `5, 4, 3, 2, 1, 0, None`. -/
def orderMoves (b : BoardArr) (moves : List Move) : List Move :=
  segOf b moves (some 5) ++ segOf b moves (some 4) ++ segOf b moves (some 3)
    ++ segOf b moves (some 2) ++ segOf b moves (some 1)
    ++ segOf b moves (some 0) ++ segOf b moves none

/-- The searcher state fields relevant to move selection (`__bestMove`,
`__moveComplete`, `__moveMade`); the wall-clock `__thinkingTime` is not
representable here and is abstracted away. -/
structure NegaMaxState where
  bestMove : Option Move
  moveComplete : Bool
  moveMade : Bool
deriving DecidableEq, Repr

/-- NegaMax.__startThinking: every modelled field is overwritten, and
`__bestMove` is seeded with `board.getAllLegalMoves()[0]` (`head?` here:
the Python raises IndexError when the legal list is empty). -/
def startThinking (board : VirtualBoard) : NegaMaxState :=
  ⟨(VirtualBoard.getAllLegalMoves board).head?, false, false⟩

/-- The root candidate loop of `NegaMax.takeTurn` (`depth == __maxDepth`):
walk the ordered moves, track the running maximum and replace the best move
when a candidate scores strictly higher, update `alpha` and break on
`alpha >= beta`.  The value of the recursive negamax call (including its
internal timeout behaviour) is abstracted as the `score` oracle. -/
def rootLoop (score : Move → Int) :
    List Move → Move → Int → Int → Int → Move
  | [], best, _, _, _ => best
  | m :: rest, best, maxScore, alpha, beta =>
    let sc := score m
    let best2 := if sc > maxScore then m else best
    let maxScore2 := if sc > maxScore then sc else maxScore
    let alpha2 := max alpha maxScore2
    if alpha2 ≥ beta then best2
    else rootLoop score rest best2 maxScore2 alpha2 beta

/-- The root of `NegaMax.takeTurn` for a completed (non-interrupted) pass:
`__startThinking` seeds `__bestMove`, then the loop above runs over
`__orderMoves(board.getBoard(), board.getAllLegalMoves())` with
`maxScore = alpha = -10000`, `beta = 10000`.  A timeout at any point makes
the engine play the current `__bestMove`, so the reachable outputs are the
seed and every intermediate value of the loop. -/
def takeTurnRoot (score : Move → Int) (v : VirtualBoard) : Option Move :=
  match (startThinking v).bestMove with
  | none => none
  | some b =>
    some (rootLoop score (orderMoves v.board (VirtualBoard.getAllLegalMoves v))
      b (-10000) (-10000) 10000)

/-- The logical state of a live piece: kind (0 pawn … 5 king), colour, and
the two history flags. -/
structure PieceState where
  kind : Fin 6
  team : Bool
  movedEver : Bool
  doubleMoved : Bool
deriving DecidableEq, Repr, Fintype

/-- Which classes declare `_movedEver` (Pawn, Rook, King). -/
def hasMovedEverAttr (k : Fin 6) : Bool := k.val == 0 || k.val == 1 || k.val == 5

/-- Which classes declare `_doubleMoved` (Pawn only). -/
def hasDoubleMovedAttr (k : Fin 6) : Bool := k.val == 0

/-- Piece.encodeInt: `value * 10 + team`, then inside one try/except block
`+2` if `_movedEver` exists and holds, and only then `+4` if `_doubleMoved`
exists and holds (an AttributeError aborts the remaining additions). -/
def encodeInt (p : PieceState) : Nat :=
  p.kind.val * 10 + (if p.team then 1 else 0)
    + (if hasMovedEverAttr p.kind && p.movedEver then
        2 + (if hasDoubleMovedAttr p.kind && p.doubleMoved then 4 else 0)
      else 0)

/-- Piece.decodeInt: split the digits, rebuild a fresh piece, then apply
`movedEverTrue`/`doubleMovedTrue` for set bits.  `none` models the Python
exceptions: an out-of-range kind indexes past the class list, and
`doubleMovedTrue` exists only on Pawn. -/
def decodeInt (code : Nat) : Option PieceState :=
  let value := code / 10
  let bools := code % 10
  let team := bools % 2
  let movedEver := (bools - team) % 4 != 0
  let doubleMoved := bools / 4
  if h : value < 6 then
    if doubleMoved != 0 && value != 0 then none
    else some ⟨⟨value, h⟩, team == 1, movedEver, doubleMoved != 0⟩
  else none

/-- The history-flag combinations reachable in play: `_movedEver` only for
Pawn/Rook/King, `_doubleMoved` only for a Pawn, and a just-double-moved
pawn has necessarily moved. -/
def reachableFlags (p : PieceState) : Bool :=
  (hasMovedEverAttr p.kind || !p.movedEver)
    && (hasDoubleMovedAttr p.kind || !p.doubleMoved)
    && (!p.doubleMoved || p.movedEver)

/-- One column of the standard starting setup: back-rank piece value `v`.
Black's back rank is at `y = 0`, its pawns at `y = 1`; white (the first
side to move) mirrors them at `y = 7` and `y = 6`. -/
def initCol (v : Nat) : List (Option Nat) :=
  [some (v * 10 + 1), some 1, none, none, none, none, some 0, some (v * 10)]

/-- The standard starting board as built by `Board.__init__` and encoded by
`createVBoard` (rook, knight, bishop, queen, king, bishop, knight, rook). -/
def initBoard : BoardArr :=
  [initCol 1, initCol 2, initCol 3, initCol 4, initCol 5, initCol 3,
   initCol 2, initCol 1]

/-- The starting VirtualBoard with the first side to move. -/
def initVB : VirtualBoard := ⟨initBoard, false⟩

/-- An empty column, for building the concrete test positions. -/
def emptyCol : List (Option Nat) :=
  [none, none, none, none, none, none, none, none]

/-- An empty board. -/
def emptyB : BoardArr :=
  [emptyCol, emptyCol, emptyCol, emptyCol, emptyCol, emptyCol, emptyCol,
   emptyCol]

/-- VirtualBoard.placePiece on a bare board value. -/
def placePiece (b : BoardArr) (x y : Int) (c : Nat) : BoardArr :=
  setB b x y (some c)

/-- The 64 board squares. -/
def allSquares : List Sqr :=
  ((List.range 8).map (fun x : Nat =>
    (List.range 8).map (fun y : Nat => (⟨(x : Int), (y : Int)⟩ : Sqr)))).flatten

/-- Whether square `s` holds a king of team `team` (the predicate inside
`VirtualBoard.getCheck`, re-read through `(p % 2 == 1) == team`). -/
def isKingAt (b : BoardArr) (team : Bool) (s : Sqr) : Bool :=
  match atB b s.x s.y with
  | some p => ((p % 2 == 1) == team) && (p / 10 == 5)
  | none => false

/-- The squares of team `team`'s kings: the spec side's "the mover's own
king's square". -/
def kingSquares (b : BoardArr) (team : Bool) : List Sqr :=
  allSquares.filter (isKingAt b team)

/-- Specification-side check predicate: team `defender`'s king is attacked
iff some opposing pseudo-legal move's destination is a square holding that
king. -/
def kingInCheckSpec (b : BoardArr) (defender : Bool) : Bool :=
  (getAllMovesB (!defender) b).any (fun m => isKingAt b defender m.dst)

/-- Castle-ready position: white king `e1` (4,7) unmoved, white rook `a1`
(0,7) unmoved, black king (4,0); white to move. -/
def castleBoard : BoardArr :=
  placePiece (placePiece (placePiece emptyB 4 7 50) 0 7 10) 4 0 51

/-- The left-castle move as the live board hands it to the virtual board:
king from (4,7) to (2,7) with the `lc` tag. -/
def lcMove : Move := ⟨⟨4, 7⟩, ⟨2, 7⟩, some Flag.lc⟩

/-- En-passant-ready snapshot: white pawn (3,3) that has moved (code 2),
black pawn (2,3) with its just-double-moved flag set (code 7 = pawn, black,
moved ever, double moved); the diagonal (2,2) is empty; white to move. -/
def epBoard : BoardArr := placePiece (placePiece emptyB 3 3 2) 2 3 7

/-- Check-evaluation position: white king (4,7) (code 52), black rook (4,0)
(code 13) giving check down the file, black king (0,0) (code 51); white to
move, so the mover's own king is in check and the enemy king is not. -/
def checkBoard : BoardArr :=
  placePiece (placePiece (placePiece emptyB 4 7 52) 4 0 13) 0 0 51

/-- The check-evaluation position as a VirtualBoard. -/
def checkVB : VirtualBoard := ⟨checkBoard, false⟩

/-- Two bare kings: white (0,7), black (7,0); white to move. -/
def kkBoard : BoardArr := placePiece (placePiece emptyB 0 7 52) 7 0 53

/-- The two-king position from white's view. -/
def kkVB1 : VirtualBoard := ⟨kkBoard, false⟩

/-- The identical two-king state from black's view: board rotated, turn
flipped. -/
def kkVB2 : VirtualBoard := ⟨rotateB kkBoard, true⟩

/-- Ordering counterexample position: white queen (3,3) (code 42) attacks
the black rook (3,0) (code 11) and the black bishop (0,3) (code 31); kings
at (7,7) and (0,0). -/
def orderBoard : BoardArr :=
  placePiece (placePiece (placePiece (placePiece (placePiece emptyB
    3 3 42) 3 0 11) 0 3 31) 7 7 52) 0 0 53

/-- The queen-takes-rook move on `orderBoard`. -/
def moveCapRook : Move := ⟨⟨3, 3⟩, ⟨3, 0⟩, none⟩

/-- The queen-takes-bishop move on `orderBoard`. -/
def moveCapBishop : Move := ⟨⟨3, 3⟩, ⟨0, 3⟩, none⟩

/-- A reachable piece state used as the codec round-trip witness: a black
pawn that has moved and just double-moved. -/
def pawnStateW : PieceState := ⟨0, true, true, true⟩

/-- Total order on capture keys induced by the dictionary insertion order
`5, 4, 3, 2, 1, 0, None` of `__orderMoves` (`None` lowest). -/
def rankOf : Option Nat → Nat
  | none => 0
  | some k => k + 1

/-- The method-call shape of `VirtualBoard.fakeMove`: the Python body reads
`self.__board` once into `copy.deepcopy`, performs every update on that
copy, and returns it; no statement assigns to `self`, so the call maps the
receiver to itself alongside the returned board. -/
def VirtualBoard.fakeMoveCall (v : VirtualBoard) (m : Move) :
    VirtualBoard × BoardArr :=
  (v, fakeMoveB v.board m 4)

/-- First legal move of the two-king position (the search-root witness). -/
def kkMove1 : Move := ⟨⟨0, 7⟩, ⟨0, 6⟩, none⟩

/-- The remaining legal moves of the two-king position. -/
def kkRest : List Move :=
  [⟨⟨0, 7⟩, ⟨1, 6⟩, none⟩, ⟨⟨0, 7⟩, ⟨1, 7⟩, none⟩]

/-- Erasing a list of elements none of which equals `x` leaves the head
`x` in place. -/
theorem foldl_erase_cons {α : Type} [DecidableEq α] (x : α) :
    ∀ (ds xs : List α), (∀ d ∈ ds, d ≠ x) →
      List.foldl List.erase (x :: xs) ds = x :: List.foldl List.erase xs ds := by
  intro ds
  induction ds with
  | nil => intro xs _; rfl
  | cons d ds ih =>
    intro xs h
    have hdx : d ≠ x := h d (List.mem_cons_self d ds)
    simp only [List.foldl_cons]
    rw [List.erase_cons_tail (by simp [hdx, Ne.symm hdx])]
    exact ih (xs.erase d) (fun e he => h e (List.mem_cons_of_mem d he))

/-- The `toDel`-then-`remove` dance of `getAllLegalMoves` is a filter:
collecting the failing elements and erasing them by first occurrence keeps
exactly the passing ones, multiplicity and order included. -/
theorem foldl_erase_filter {α : Type} [DecidableEq α] (p : α → Bool) :
    ∀ l : List α,
      List.foldl List.erase l (l.filter p) = l.filter (fun a => !p a) := by
  intro l
  induction l with
  | nil => rfl
  | cons x xs ih =>
    by_cases hx : p x = true
    · rw [List.filter_cons_of_pos hx]
      simp only [List.foldl_cons, List.erase_cons_head]
      rw [ih, List.filter_cons_of_neg (by simp [hx])]
    · rw [List.filter_cons_of_neg (by simp [hx]),
        List.filter_cons_of_pos (by simp [hx])]
      rw [foldl_erase_cons x (xs.filter p) xs
        (fun d hd => by
          have hpd := (List.mem_filter.mp hd).2
          intro hdx
          rw [hdx] at hpd
          exact hx hpd)]
      rw [ih]

/-- VirtualBoard.getAllLegalMoves equals the pseudo-legal list filtered by
the post-move self-check test. -/
theorem getAllLegalMoves_eq_filter (v : VirtualBoard) :
    VirtualBoard.getAllLegalMoves v
      = (getAllMovesB v.turn v.board).filter
          (fun m => !getCheckOn (!v.turn) (fakeMoveB v.board m 4)) :=
  foldl_erase_filter _ _

/-- A square within bounds is among `allSquares`. -/
theorem mem_allSquares {s : Sqr} (hx0 : 0 ≤ s.x) (hx8 : s.x < 8)
    (hy0 : 0 ≤ s.y) (hy8 : s.y < 8) : s ∈ allSquares := by
  have h1 : (s.x.toNat : Int) = s.x := Int.toNat_of_nonneg hx0
  have h2 : (s.y.toNat : Int) = s.y := Int.toNat_of_nonneg hy0
  have hx : s.x.toNat ∈ List.range 8 := List.mem_range.mpr (by omega)
  have hy : s.y.toNat ∈ List.range 8 := List.mem_range.mpr (by omega)
  have hrow : ((List.range 8).map (fun y : Nat => (⟨(s.x.toNat : Int), (y : Int)⟩ : Sqr)))
      ∈ (List.range 8).map (fun x : Nat =>
          (List.range 8).map (fun y : Nat => (⟨(x : Int), (y : Int)⟩ : Sqr))) :=
    List.mem_map.mpr ⟨s.x.toNat, hx, rfl⟩
  have hs : s ∈ (List.range 8).map
      (fun y : Nat => (⟨(s.x.toNat : Int), (y : Int)⟩ : Sqr)) :=
    List.mem_map.mpr ⟨s.y.toNat, hy, by cases s; simp_all⟩
  exact List.mem_flatten.mpr ⟨_, hrow, hs⟩

/-- Membership in `kingSquares` is exactly the `isKingAt` test. -/
theorem mem_kingSquares {b : BoardArr} {team : Bool} {s : Sqr} :
    s ∈ kingSquares b team ↔ isKingAt b team s = true := by
  unfold kingSquares
  rw [List.mem_filter]
  refine ⟨fun h => h.2, fun h => ⟨?_, h⟩⟩
  unfold isKingAt at h
  cases hat : atB b s.x s.y with
  | none => rw [hat] at h; cases h
  | some p =>
    unfold atB at hat
    by_cases hb : 0 ≤ s.x ∧ s.x < 8 ∧ 0 ≤ s.y ∧ s.y < 8
    · exact mem_allSquares hb.1 hb.2.1 hb.2.2.1 hb.2.2.2
    · rw [if_neg hb] at hat; cases hat

/-- For booleans, differing from `t` is agreeing with `!t`. -/
theorem bne_eq_beq_not : ∀ a t : Bool, (a != t) = (a == !t) := by decide

/-- The per-move test inside `getCheckOn turn` is `isKingAt` for the
opposing team at the move's destination. -/
theorem getCheckOn_cond_eq (turn : Bool) (bd : BoardArr) (m : Move) :
    (match atB bd m.dst.x m.dst.y with
     | some p => ((p % 2 == 1) != turn) && (p / 10 == 5)
     | none => false) = isKingAt bd (!turn) m.dst := by
  unfold isKingAt
  cases atB bd m.dst.x m.dst.y with
  | none => rfl
  | some p =>
    show ((p % 2 == 1) != turn && (p / 10 == 5))
        = (((p % 2 == 1) == !turn) && (p / 10 == 5))
    rw [bne_eq_beq_not]

/-- C1: a move is in the legal list iff it is pseudo-legal and, on the
disposable post-move board produced by `fakeMove`, no opposing pseudo-legal
move's destination coincides with a square holding the mover's own king.
Candidates failing the test are dropped by filtering — the computation is a
total function into a list, so the caller sees the filtered set and never
an exception. -/
theorem getAllLegalMoves_iff_no_king_attack (v : VirtualBoard) (m : Move) :
    m ∈ VirtualBoard.getAllLegalMoves v
      ↔ m ∈ getAllMovesB v.turn v.board
        ∧ ∀ m2 ∈ getAllMovesB (!v.turn) (fakeMoveB v.board m 4),
            m2.dst ∉ kingSquares (fakeMoveB v.board m 4) v.turn := by
  rw [getAllLegalMoves_eq_filter, List.mem_filter]
  constructor
  · rintro ⟨hmem, hchk⟩
    refine ⟨hmem, fun m2 hm2 hking => ?_⟩
    rw [Bool.not_eq_eq_eq_not, Bool.not_true] at hchk
    have : getCheckOn (!v.turn) (fakeMoveB v.board m 4) = true := by
      unfold getCheckOn
      rw [List.any_eq_true]
      refine ⟨m2, hm2, ?_⟩
      rw [getCheckOn_cond_eq, Bool.not_not]
      exact mem_kingSquares.mp hking
    rw [this] at hchk
    cases hchk
  · rintro ⟨hmem, hking⟩
    refine ⟨hmem, ?_⟩
    rw [Bool.not_eq_eq_eq_not, Bool.not_true]
    by_contra hne
    have hchk : getCheckOn (!v.turn) (fakeMoveB v.board m 4) = true := by
      cases h : getCheckOn (!v.turn) (fakeMoveB v.board m 4)
      · exact absurd h hne
      · rfl
    unfold getCheckOn at hchk
    rw [List.any_eq_true] at hchk
    obtain ⟨m2, hm2, hcond⟩ := hchk
    rw [getCheckOn_cond_eq, Bool.not_not] at hcond
    exact hking m2 hm2 (mem_kingSquares.mpr hcond)

/-- The best move returned by the root candidate loop is either the seed or
one of the looped-over moves. -/
theorem rootLoop_mem (score : Move → Int) :
    ∀ (moves : List Move) (best : Move) (maxScore alpha beta : Int)
      (L : List Move), best ∈ L → (∀ x ∈ moves, x ∈ L) →
      rootLoop score moves best maxScore alpha beta ∈ L := by
  intro moves
  induction moves with
  | nil => intro best maxScore alpha beta L hb _; exact hb
  | cons m rest ih =>
    intro best maxScore alpha beta L hb hsub
    have hm : m ∈ L := hsub m (List.mem_cons_self m rest)
    have hrest : ∀ x ∈ rest, x ∈ L := fun x hx => hsub x (List.mem_cons_of_mem m hx)
    simp only [rootLoop]
    split
    · split
      · exact hm
      · exact ih _ _ _ _ L hm hrest
    · split
      · exact hb
      · exact ih _ _ _ _ L hb hrest

/-- Sorting by proximity does not change membership. -/
theorem mem_sortProx {x : Move} {l : List Move} : x ∈ sortProx l ↔ x ∈ l := by
  unfold sortProx
  exact List.mem_insertionSort _

/-- Membership in one ordering group: the move is in the input and files
under that capture key. -/
theorem mem_segOf {b : BoardArr} {moves : List Move} {k : Option Nat}
    {x : Move} : x ∈ segOf b moves k ↔ x ∈ moves ∧ capturedKind b x = k := by
  simp only [segOf, sortProx, List.mem_append, List.mem_insertionSort,
    List.mem_filter, beq_iff_eq]
  by_cases hs : isSpecialMove x <;> simp [hs]

/-- Every move emitted by `__orderMoves` comes from the input list. -/
theorem mem_orderMoves_sub {b : BoardArr} {moves : List Move} {x : Move}
    (h : x ∈ orderMoves b moves) : x ∈ moves := by
  simp only [orderMoves, List.mem_append] at h
  rcases h with ((((((h | h) | h) | h) | h) | h) | h) <;>
    exact (mem_segOf.mp h).1

/-- C9: when the legal list is non-empty, `__startThinking` seeds
`__bestMove` with its first element before any candidate is evaluated, and
every move the root search can return — the seed on a forced timeout, or
any loop update — is a member of the legal list, so the engine never
produces no move (or an illegal one) while legal moves exist. -/
theorem search_root_seeds_first_legal (v : VirtualBoard) (score : Move → Int)
    (m : Move) (rest : List Move)
    (h : VirtualBoard.getAllLegalMoves v = m :: rest) :
    (startThinking v).bestMove = some m
    ∧ ∀ r, takeTurnRoot score v = some r →
        r ∈ VirtualBoard.getAllLegalMoves v := by
  have hseed : (startThinking v).bestMove = some m := by
    unfold startThinking
    rw [h]
    rfl
  refine ⟨hseed, fun r hr => ?_⟩
  have hrun : takeTurnRoot score v
      = some (rootLoop score
          (orderMoves v.board (VirtualBoard.getAllLegalMoves v))
          m (-10000) (-10000) 10000) := by
    unfold takeTurnRoot
    rw [hseed]
  rw [hrun] at hr
  have hr2 := Option.some.inj hr
  rw [← hr2]
  exact rootLoop_mem score _ m (-10000) (-10000) 10000 _
    (by rw [h]; exact List.mem_cons_self m rest)
    (fun x hx => mem_orderMoves_sub hx)

/-- Witness for `search_root_seeds_first_legal` on the two-king position
with a constant score oracle. -/
theorem search_root_seeds_first_legal_witness :
    VirtualBoard.getAllLegalMoves kkVB1 = kkMove1 :: kkRest
    ∧ ((startThinking kkVB1).bestMove = some kkMove1
       ∧ ∀ r, takeTurnRoot (fun _ => 0) kkVB1 = some r →
           r ∈ VirtualBoard.getAllLegalMoves kkVB1) :=
  ⟨by decide,
   search_root_seeds_first_legal kkVB1 (fun _ => 0) kkMove1 kkRest (by decide)⟩

/-- C8: from the standard initial chess setup with the first side to move,
the legal-move computation returns a list containing exactly 20 moves. -/
theorem initial_position_twenty_legal_moves :
    (VirtualBoard.getAllLegalMoves initVB).length = 20 := by decide

/-- C2: refuted on the virtual board.  Applying the left castle on
`castleBoard` through `fakeMove` relocates the rook correctly, but the
en-passant `else` branch of the special-move block also fires for castle
tags and erases the square `(dst.x, src.y)` — the very square the king was
just moved to.  After the final rotation the castle destination (2,7) maps
to (5,0): it is empty, no white king remains anywhere on the board, and the
rook sits on the crossed square's image (4,0); the black king (3,7) shows
the rest of the board is untouched. -/
theorem fakeMove_castle_erases_king :
    atB (fakeMoveB castleBoard lcMove 4) 5 0 = none
    ∧ kingSquares (fakeMoveB castleBoard lcMove 4) false = []
    ∧ atB (fakeMoveB castleBoard lcMove 4) 4 0 = some 10
    ∧ atB (fakeMoveB castleBoard lcMove 4) 3 7 = some 51 := by decide

/-- C3: refuted on the integer-snapshot representation.  On `epBoard` the
diagonal square (2,2) is empty and the laterally adjacent (2,3) holds an
enemy pawn (code 7: pawn value 0, black, moved, just-double-moved), yet
`updatePawnMoves` generates only the forward push and no move tagged `e`:
the integer-agent `isPawn` lambda tests `target // 10 == 5` (the king's
value) instead of 0, so the en passant branch can never fire. -/
theorem updatePawnMoves_misses_en_passant :
    updatePawnMoves false false ⟨3, 3⟩ 2 epBoard = [⟨⟨3, 3⟩, ⟨3, 2⟩, none⟩]
    ∧ atB epBoard 2 2 = none
    ∧ atB epBoard 2 3 = some 7
    ∧ (7 : Nat) / 10 = 0 ∧ teamInt 7 = true ∧ doubleMovedInt 7 = true
    ∧ movedEverInt 7 = true := by decide

/-- C4: for every piece state whose history flags are reachable in play
(ever-moved only for Pawn/Rook/King, just-double-moved only for a pawn that
has moved), decoding the encoded tag returns exactly the same kind, colour
and flags. -/
theorem decode_encode_roundtrip :
    ∀ p : PieceState, reachableFlags p = true →
      decodeInt (encodeInt p) = some p := by decide

/-- Witness for `decode_encode_roundtrip` at a black pawn that has moved
and just double-moved. -/
theorem decode_encode_roundtrip_witness :
    reachableFlags pawnStateW = true
    ∧ decodeInt (encodeInt pawnStateW) = some pawnStateW :=
  ⟨by decide, decode_encode_roundtrip pawnStateW (by decide)⟩

/-- C5: refuted (against the evaluation's own attribute documentation).  On
`checkVB` the mover's own king is in check and the enemy king is not — per
the specification-side predicate `kingInCheckSpec` — yet the fast
evaluation comes out 300 ABOVE the same evaluation without the peril term:
`getCheck()` reports the opposite king relative to its docstring, so
`perilPoints * (getCheck() - getCheck(turnOffset=True))` rewards being in
check and penalises checking the enemy. -/
theorem boardEvalFast_own_check_bonus :
    boardEvalFast checkVB = boardEvalFastSansPeril checkVB + 300
    ∧ kingInCheckSpec checkVB.board false = true
    ∧ kingInCheckSpec checkVB.board true = false
    ∧ checkVB.turn = false := by decide

/-- C6: counterexample.  `kkVB2` is the same two-king state as `kkVB1` seen
from the other mover (board rotated, turn flipped), but both evaluate to
130 — the mobility bonus and the +100 constant enter positively from both
perspectives — so the evaluation is not zero-sum. -/
theorem boardEvalFast_not_zero_sum :
    kkVB2.board = rotateB kkVB1.board ∧ kkVB2.turn = !kkVB1.turn
    ∧ boardEvalFast kkVB1 = 130 ∧ boardEvalFast kkVB2 = 130
    ∧ ¬boardEvalFast kkVB1 = -boardEvalFast kkVB2 := by decide

/-- One piece's contributions to the two opposing views cancel, except a
king (either colour), which contributes its presence constant once. -/
theorem pieceContrib_add (t : Bool) (p : Nat) :
    pieceContrib t p + pieceContrib (!t) p
      = if 50 ≤ p then (10000 : Int) else 0 := by
  unfold pieceContrib
  cases hb : (p % 2 == 1) <;> cases t <;>
    simp only [hb, Bool.not_true, Bool.not_false] <;>
    by_cases hp : p < 50 <;>
    simp [hp, show ¬50 ≤ p ↔ p < 50 from by omega] <;>
    omega

/-- Pointwise addition of two mapped sums. -/
theorem sum_map_add_distrib (f g : Nat → Int) :
    ∀ ps : List Nat,
      (ps.map f).sum + (ps.map g).sum = (ps.map (fun p => f p + g p)).sum := by
  intro ps
  induction ps with
  | nil => simp
  | cons p ps ih =>
    simp only [List.map_cons, List.sum_cons]
    omega

/-- Summing the king indicator counts the kings. -/
theorem sum_if_king (c : Int) :
    ∀ ps : List Nat,
      (ps.map (fun p => if 50 ≤ p then c else 0)).sum
        = c * (ps.countP (fun p => 50 ≤ p) : Int) := by
  intro ps
  induction ps with
  | nil => simp
  | cons p ps ih =>
    simp only [List.map_cons, List.sum_cons, List.countP_cons]
    by_cases hp : 50 ≤ p
    · rw [if_pos hp, ih]
      simp [hp]
      ring
    · rw [if_neg hp, ih]
      simp [hp]

/-- The per-square material loop splits into per-column sums. -/
theorem flatten_filterMap_sum (f : Nat → Int) :
    ∀ b : BoardArr,
      ((b.flatten.filterMap id).map f).sum
        = (b.map (fun col => ((col.filterMap id).map f).sum)).sum := by
  intro b
  induction b with
  | nil => rfl
  | cons col bs ih =>
    simp only [List.flatten_cons, List.filterMap_append, List.map_append,
      List.sum_append, List.map_cons, List.sum_cons, ih]

/-- The material loop is invariant under the full board rotation. -/
theorem rotate_material_sum (f : Nat → Int) (b : BoardArr) :
    (((rotateB b).flatten.filterMap id).map f).sum
      = ((b.flatten.filterMap id).map f).sum := by
  rw [flatten_filterMap_sum, flatten_filterMap_sum]
  unfold rotateB
  rw [List.map_reverse, List.sum_reverse, List.map_map]
  congr 1
  apply List.map_congr_left
  intro col _
  simp only [Function.comp_apply, List.filterMap_reverse, List.map_reverse,
    List.sum_reverse]

/-- C6 amended: on any board carrying exactly two king codes, the
material-and-king-presence component of the fast evaluation is zero-sum —
the score from one side equals the negation of the score of the same state
seen from the other mover (board rotated, turn flipped).  The full fast
evaluation is not zero-sum (see the counterexample): the mobility bonus and
the +100 constant enter positively from both perspectives. -/
theorem materialEval_zero_sum (b : BoardArr) (t : Bool)
    (h : kingCount b = 2) :
    materialEval b t = -materialEval (rotateB b) (!t) := by
  have key : materialEval b t + materialEval (rotateB b) (!t) = 0 := by
    unfold materialEval
    rw [rotate_material_sum]
    have h1 := sum_map_add_distrib (pieceContrib t) (pieceContrib (!t))
      (b.flatten.filterMap id)
    have h2 : (b.flatten.filterMap id).map
          (fun p => pieceContrib t p + pieceContrib (!t) p)
        = (b.flatten.filterMap id).map
          (fun p => if 50 ≤ p then (10000 : Int) else 0) :=
      List.map_congr_left (fun p _ => pieceContrib_add t p)
    have h3 := sum_if_king 10000 (b.flatten.filterMap id)
    unfold kingCount at h
    rw [h2] at h1
    rw [h3] at h1
    rw [h] at h1
    omega
  omega

/-- Witness for `materialEval_zero_sum` on the two-king position. -/
theorem materialEval_zero_sum_witness :
    kingCount kkBoard = 2
    ∧ materialEval kkBoard false = -materialEval (rotateB kkBoard) (!false) :=
  ⟨by decide, materialEval_zero_sum kkBoard false (by decide)⟩

/-- Sorting by proximity does not change multiplicities. -/
theorem count_sortProx (a : Move) (l : List Move) :
    (sortProx l).count a = l.count a :=
  (List.perm_insertionSort _ l).count_eq a

/-- Splitting a list by any boolean predicate preserves multiplicities. -/
theorem count_filter_split (a : Move) (l : List Move) (p : Move → Bool) :
    (l.filter p).count a + (l.filter (fun m => !p m)).count a = l.count a := by
  by_cases hp : p a = true
  · have h1 : List.count a (List.filter p l) = List.count a l :=
      List.count_filter hp
    have h2 : List.count a (List.filter (fun m => !p m) l) = 0 :=
      List.count_eq_zero_of_not_mem (fun hmem => by
        have h3 := (List.mem_filter.mp hmem).2
        rw [hp] at h3
        simp at h3)
    omega
  · have hp2 : (fun m => !p m) a = true := by simp [hp]
    have h1 : List.count a (List.filter (fun m => !p m) l) = List.count a l :=
      List.count_filter hp2
    have h2 : List.count a (List.filter p l) = 0 :=
      List.count_eq_zero_of_not_mem (fun hmem =>
        hp ((List.mem_filter.mp hmem).2))
    omega

/-- Multiplicity of a move inside one ordering group. -/
theorem count_segOf (b : BoardArr) (moves : List Move) (k : Option Nat)
    (a : Move) :
    (segOf b moves k).count a
      = if capturedKind b a = k then moves.count a else 0 := by
  simp only [segOf]
  rw [List.count_append, count_sortProx, count_sortProx, count_filter_split]
  by_cases hk : capturedKind b a = k
  · rw [if_pos hk]
    exact List.count_filter (by simp [hk])
  · rw [if_neg hk]
    exact List.count_eq_zero_of_not_mem (fun hmem =>
      hk (beq_iff_eq.mp (List.mem_filter.mp hmem).2))

/-- Provided every move files under one of the dictionary's seven keys
(true whenever the board's codes stay below 60, as every code the game
produces does), `__orderMoves` permutes its input. -/
theorem orderMoves_perm (b : BoardArr) (moves : List Move)
    (hwf : ∀ m ∈ moves, rankOf (capturedKind b m) ≤ 6) :
    (orderMoves b moves).Perm moves := by
  rw [List.perm_iff_count]
  intro a
  simp only [orderMoves, List.count_append, count_segOf]
  by_cases ha : a ∈ moves
  · have hr := hwf a ha
    rcases hck : capturedKind b a with _ | k
    · simp [hck]
    · rw [hck] at hr
      have hk6 : k ≤ 5 := by
        simp [rankOf] at hr
        omega
      interval_cases k <;> simp [hck]
  · have h0 : moves.count a = 0 := List.count_eq_zero_of_not_mem ha
    simp [h0]

/-- `__orderMoves` as the flattening of its seven groups in key order. -/
theorem orderMoves_eq_flatten (b : BoardArr) (moves : List Move) :
    orderMoves b moves
      = ([some 5, some 4, some 3, some 2, some 1, some 0, none].map
          (segOf b moves)).flatten := by
  simp [orderMoves]

/-- Pairwise property of a flattening of blocks: each block is internally
pairwise, and the block list is pairwise cross-related. -/
theorem pairwise_flatten_blocks {R : Move → Move → Prop}
    (f : Option Nat → List Move) (hin : ∀ k, (f k).Pairwise R) :
    ∀ keys : List (Option Nat),
      keys.Pairwise (fun k1 k2 => ∀ x ∈ f k1, ∀ y ∈ f k2, R x y) →
      ((keys.map f).flatten).Pairwise R := by
  intro keys
  induction keys with
  | nil => intro _; simp
  | cons k ks ih =>
    intro hp
    simp only [List.map_cons, List.flatten_cons]
    refine List.pairwise_append.mpr
      ⟨hin k, ih (List.pairwise_cons.mp hp).2, ?_⟩
    intro x hx y hy
    rw [List.mem_flatten] at hy
    obtain ⟨l, hl, hyl⟩ := hy
    rw [List.mem_map] at hl
    obtain ⟨k2, hk2, rfl⟩ := hl
    exact (List.pairwise_cons.mp hp).1 k2 hk2 x hx y hyl

/-- A move in the special half of a group carries a tag; one in the plain
half does not. -/
theorem mem_segOf_parts {b : BoardArr} {moves : List Move} {k : Option Nat}
    {x : Move} (h : x ∈ segOf b moves k) :
    x ∈ sortProx ((moves.filter (fun m => capturedKind b m == k)).filter
        isSpecialMove)
    ∨ x ∈ sortProx ((moves.filter (fun m => capturedKind b m == k)).filter
        (fun m => !isSpecialMove m)) := by
  simpa only [segOf, List.mem_append] using h

/-- Each ordering group is internally sorted for the rank relation (all its
members share one rank). -/
theorem segOf_pairwise_rank (b : BoardArr) (moves : List Move)
    (k : Option Nat) :
    (segOf b moves k).Pairwise
      (fun a c => rankOf (capturedKind b a) ≥ rankOf (capturedKind b c)) :=
  List.pairwise_of_forall_mem_list (fun x hx y hy => by
    rw [(mem_segOf.mp hx).2, (mem_segOf.mp hy).2])

/-- Within one ordering group every specially tagged move precedes every
plain move. -/
theorem segOf_pairwise_special (b : BoardArr) (moves : List Move)
    (k : Option Nat) :
    (segOf b moves k).Pairwise
      (fun a c => capturedKind b a = capturedKind b c →
        isSpecialMove c = true → isSpecialMove a = true) := by
  simp only [segOf]
  refine List.pairwise_append.mpr ⟨?_, ?_, ?_⟩
  · refine List.pairwise_of_forall_mem_list (fun x hx _ _ => ?_)
    intro _ _
    rw [mem_sortProx] at hx
    exact (List.mem_filter.mp hx).2
  · refine List.pairwise_of_forall_mem_list (fun _ _ y hy => ?_)
    intro _ hspec
    rw [mem_sortProx] at hy
    have h2 := (List.mem_filter.mp hy).2
    rw [hspec] at h2
    simp at h2
  · intro x hx _ _ _ _
    rw [mem_sortProx] at hx
    exact (List.mem_filter.mp hx).2

/-- C7 amended: `__orderMoves` returns a permutation of its input in which
moves are grouped by the KIND INDEX of the captured piece in the order
king, queen, bishop, knight, rook, pawn (not by point value: rook captures,
worth 500, come after bishop/knight captures, worth 300/320), an en passant
move is filed as a pawn capture despite its empty destination square, all
non-capturing moves come last, and within each group the specially tagged
moves precede the plain ones.  The permutation needs every move to file
under one of the seven dictionary keys — codes of 60 or more would raise a
KeyError in the source. -/
theorem orderMoves_ordering (b : BoardArr) (moves : List Move)
    (hwf : ∀ m ∈ moves, rankOf (capturedKind b m) ≤ 6) :
    (orderMoves b moves).Perm moves
    ∧ (orderMoves b moves).Pairwise
        (fun a c => rankOf (capturedKind b a) ≥ rankOf (capturedKind b c))
    ∧ (orderMoves b moves).Pairwise
        (fun a c => capturedKind b a = capturedKind b c →
          isSpecialMove c = true → isSpecialMove a = true) := by
  refine ⟨orderMoves_perm b moves hwf, ?_, ?_⟩
  · rw [orderMoves_eq_flatten]
    refine pairwise_flatten_blocks _ (segOf_pairwise_rank b moves) _ ?_
    have hkeys : ([some 5, some 4, some 3, some 2, some 1, some 0,
        (none : Option Nat)]).Pairwise
        (fun k1 k2 => rankOf k1 ≥ rankOf k2) := by decide
    refine hkeys.imp ?_
    intro k1 k2 hge x hx y hy
    rw [(mem_segOf.mp hx).2, (mem_segOf.mp hy).2]
    exact hge
  · rw [orderMoves_eq_flatten]
    refine pairwise_flatten_blocks _ (segOf_pairwise_special b moves) _ ?_
    have hkeys : ([some 5, some 4, some 3, some 2, some 1, some 0,
        (none : Option Nat)]).Pairwise (fun k1 k2 => ¬k1 = k2) := by decide
    refine hkeys.imp ?_
    intro k1 k2 hne x hx y hy heq
    rw [(mem_segOf.mp hx).2, (mem_segOf.mp hy).2] at heq
    exact absurd heq hne

/-- Witness for `orderMoves_ordering` at the queen-capture position. -/
theorem orderMoves_ordering_witness :
    (∀ m ∈ [moveCapRook, moveCapBishop],
        rankOf (capturedKind orderBoard m) ≤ 6)
    ∧ ((orderMoves orderBoard [moveCapRook, moveCapBishop]).Perm
          [moveCapRook, moveCapBishop]
       ∧ (orderMoves orderBoard [moveCapRook, moveCapBishop]).Pairwise
           (fun a c => rankOf (capturedKind orderBoard a)
             ≥ rankOf (capturedKind orderBoard c))
       ∧ (orderMoves orderBoard [moveCapRook, moveCapBishop]).Pairwise
           (fun a c => capturedKind orderBoard a = capturedKind orderBoard c →
             isSpecialMove c = true → isSpecialMove a = true)) :=
  ⟨by decide, orderMoves_ordering orderBoard [moveCapRook, moveCapBishop]
    (by decide)⟩

/-- C7: counterexample.  On `orderBoard` the queen can capture the rook
(500 points) or the bishop (300 points), but `__orderMoves` files moves by
piece-kind index (5,4,3,2,1,0), so the bishop capture (kind 3) is emitted
before the rook capture (kind 1) although the rook is worth more points. -/
theorem orderMoves_not_by_point_value :
    orderMoves orderBoard [moveCapRook, moveCapBishop]
        = [moveCapBishop, moveCapRook]
    ∧ capturedKind orderBoard moveCapRook = some 1
    ∧ capturedKind orderBoard moveCapBishop = some 3
    ∧ piecePoints 1 > piecePoints 3 := by decide

/-- C10: `VirtualBoard.fakeMove` computes the post-move board on a deep
copy and returns it; the receiver's stored board and turn are unchanged, so
`getBoard`/`getTurn` agree before and after the call. -/
theorem fakeMove_leaves_state_unchanged :
    ∀ (v : VirtualBoard) (m : Move),
      (VirtualBoard.fakeMoveCall v m).1.getBoard = v.getBoard
      ∧ (VirtualBoard.fakeMoveCall v m).1.getTurn = v.getTurn
      ∧ (VirtualBoard.fakeMoveCall v m).2 = fakeMoveB v.board m 4 :=
  fun _ _ => ⟨rfl, rfl, rfl⟩

end ChessPlus
